import Mathlib

/-!
Verification of the hint-overlay core of the `hints` repository
(`src/hints/huds/overlay.py`, class `OverlayWindow`).

The Python source is shallowly embedded as executable Lean definitions:

* screen coordinates and sizes are modeled as exact integers (`Int`);
  Python's `round(x / 10)` (banker's rounding) and the `w / 2` label-center
  halving are given explicit integer implementations;
* Python strings are `List Char`, dictionaries are association lists in
  insertion order (keys unique, as for Python dicts);
* the mutable `mouse_action` dictionary is a record of optional fields;
* the GTK event loop is modeled by folding key events over the overlay
  state; redraws are modeled by an explicit draw transition.

Definitions named after the source (`filter_important_hints`,
`generate_hint_labels`, `calculate_vimium_position`, `update_hints`,
`on_key_press`, `on_draw`) are direct translations of the corresponding
methods of `OverlayWindow`.
-/

namespace Hints

set_option maxRecDepth 8000

/-- An accessibility element, read-only input of the overlay
(the `Child` objects of `hints.child`). -/
structure Child where
  width : Int
  height : Int
  rx : Int
  ry : Int
  ax : Int
  ay : Int
  role : List Char
  name : List Char
deriving DecidableEq

/-! ## Label generation (`generate_hint_labels`) -/

/-- The fixed hint alphabet, `chars = 'SADFJKLEWCMPGH'` (14 symbols). -/
def chars : List Char := ['S', 'A', 'D', 'F', 'J', 'K', 'L', 'E', 'W', 'C', 'M', 'P', 'G', 'H']

/-- The `while len(chars)**length < count: length += 1` loop of
`generate_hint_labels`, with explicit fuel (the loop adds at most
`count` to the initial length 1 before terminating). -/
def labelLengthGo (count : Nat) : Nat → Nat → Nat
  | 0, l => l
  | fuel + 1, l => if 14 ^ l < count then labelLengthGo count fuel (l + 1) else l

/-- The label length computed by `generate_hint_labels`: starts at 1 and
is incremented while `14 ^ length < count`. -/
def labelLength (count : Nat) : Nat := labelLengthGo count count 1

/-- The recursive helper `rec(p, l)` of `generate_hint_labels`: depth-first
over the alphabet, appending the accumulated string at depth 0, recursing
only while fewer than `count` labels have been produced. -/
def recBuild (count : Nat) (l : Nat) (p : List Char) (labels : List (List Char)) :
    List (List Char) :=
  match l with
  | 0 => labels ++ [p]
  | Nat.succ m =>
      chars.foldl
        (fun acc c => if acc.length < count then recBuild count m (p ++ [c]) acc else acc) labels

/-- The label list produced by `generate_hint_labels` for `count` elements:
`list(chars[:count])` when the computed length is 1, otherwise the depth-first
enumeration cut off at `count`. -/
def labelList (count : Nat) : List (List Char) :=
  if labelLength count = 1 then (chars.take count).map (fun c => [c])
  else recBuild count (labelLength count) [] []

/-- `generate_hint_labels`: builds the label list for the element count and
pairs labels with the elements in the mapping's insertion order
(`{labels[i]: child for i, child in enumerate(hints.values())}`). -/
def generate_hint_labels (hints : List (List Char × Child)) : List (List Char × Child) :=
  (labelList hints.length).zip (hints.map Prod.snd)

/-- Specification-side enumeration: all strings of length `l` over the
alphabet extending `p`, in depth-first alphabet order. -/
def dfs : Nat → List Char → List (List Char)
  | 0, p => [p]
  | l + 1, p => chars.flatMap (fun c => dfs l (p ++ [c]))

theorem length_dfs : ∀ (l : Nat) (p : List Char), (dfs l p).length = 14 ^ l := by
  intro l
  induction l with
  | zero => intro p; rfl
  | succ m ih =>
    intro p
    show (chars.flatMap (fun c => dfs m (p ++ [c]))).length = 14 ^ (m + 1)
    have aux : ∀ cs : List Char,
        (cs.flatMap (fun c => dfs m (p ++ [c]))).length = cs.length * 14 ^ m := by
      intro cs
      induction cs with
      | nil => simp
      | cons c cs ihc =>
        rw [List.flatMap_cons, List.length_append, ihc, ih]
        simp
        ring
    rw [aux chars]
    show 14 * 14 ^ m = 14 ^ (m + 1)
    rw [pow_succ]
    ring

theorem mem_dfs : ∀ {l : Nat} {p s : List Char}, s ∈ dfs l p → ∃ t, s = p ++ t ∧ t.length = l := by
  intro l
  induction l with
  | zero =>
    intro p s hs
    have : s = p := by simpa [dfs] using hs
    exact ⟨[], by simp [this], rfl⟩
  | succ m ih =>
    intro p s hs
    rw [show dfs (m + 1) p = chars.flatMap (fun c => dfs m (p ++ [c])) from rfl,
      List.mem_flatMap] at hs
    obtain ⟨c, _, hmem⟩ := hs
    obtain ⟨t, hst, hlen⟩ := ih hmem
    exact ⟨c :: t, by simp [hst], by simp [hlen]⟩

theorem nodup_dfs : ∀ (l : Nat) (p : List Char), (dfs l p).Nodup := by
  intro l
  induction l with
  | zero => intro p; simp [dfs]
  | succ m ih =>
    intro p
    rw [show dfs (m + 1) p = chars.flatMap (fun c => dfs m (p ++ [c])) from rfl,
      List.nodup_flatMap]
    constructor
    · intro c _; exact ih (p ++ [c])
    · have hnd : chars.Nodup := by decide
      refine hnd.imp ?_
      intro c₁ c₂ hne s hs₁ hs₂
      obtain ⟨t₁, he₁, -⟩ := mem_dfs hs₁
      obtain ⟨t₂, he₂, -⟩ := mem_dfs hs₂
      apply hne
      have heq : p ++ (c₁ :: t₁) = p ++ (c₂ :: t₂) := by
        have h12 : p ++ [c₁] ++ t₁ = p ++ [c₂] ++ t₂ := he₁.symm.trans he₂
        simpa [List.append_assoc] using h12
      have := List.append_cancel_left heq
      exact (List.cons.injEq _ _ _ _).mp this |>.1

theorem recBuild_spec :
    ∀ (l count : Nat) (p : List Char) (labels : List (List Char)),
      labels.length < count →
      recBuild count l p labels = labels ++ (dfs l p).take (count - labels.length) := by
  intro l
  induction l with
  | zero =>
    intro count p labels hlt
    have h1 : count - labels.length ≥ 1 := by omega
    show labels ++ [p] = labels ++ (dfs 0 p).take (count - labels.length)
    congr 1
    show [p] = List.take (count - labels.length) [p]
    cases hk : count - labels.length with
    | zero => omega
    | succ k => simp
  | succ m ih =>
    intro count p labels hlt
    show chars.foldl
        (fun acc c => if acc.length < count then recBuild count m (p ++ [c]) acc else acc) labels
      = labels ++ (dfs (m + 1) p).take (count - labels.length)
    have constAux : ∀ (cs : List Char) (labels : List (List Char)),
        ¬ labels.length < count →
        cs.foldl
          (fun acc c => if acc.length < count then recBuild count m (p ++ [c]) acc else acc)
          labels = labels := by
      intro cs
      induction cs with
      | nil => intro labels _; rfl
      | cons c cs ihc =>
        intro labels hge
        rw [List.foldl_cons, if_neg hge]
        exact ihc labels hge
    have aux : ∀ (cs : List Char) (labels : List (List Char)),
        labels.length ≤ count →
        cs.foldl
          (fun acc c => if acc.length < count then recBuild count m (p ++ [c]) acc else acc)
          labels
        = labels ++ (cs.flatMap (fun c => dfs m (p ++ [c]))).take (count - labels.length) := by
      intro cs
      induction cs with
      | nil =>
        intro labels _
        simp
      | cons c cs ihc =>
        intro labels hle
        rcases Nat.lt_or_ge labels.length count with hlt2 | hge2
        · rw [List.foldl_cons, if_pos hlt2, ih count (p ++ [c]) labels hlt2]
          have hlen1 : (labels ++ (dfs m (p ++ [c])).take (count - labels.length)).length
              ≤ count := by
            rw [List.length_append, List.length_take]
            omega
          rw [ihc _ hlen1]
          rw [List.flatMap_cons, List.take_append_eq_append_take, List.append_assoc]
          congr 2
          rw [List.length_append, List.length_take]
          congr 1
          have := length_dfs m (p ++ [c])
          omega
        · rw [List.foldl_cons, if_neg (by omega), constAux cs labels (by omega)]
          have h0 : count - labels.length = 0 := by omega
          simp [h0]
    rw [aux chars labels (Nat.le_of_lt hlt)]
    rfl

theorem flatMap_singleton_eq_map (cs : List Char) (g : Char → List Char) :
    cs.flatMap (fun c => [g c]) = cs.map g := by
  induction cs with
  | nil => rfl
  | cons c cs ih => rw [List.flatMap_cons, List.map_cons, ih]; rfl

theorem dfs_one (p : List Char) : dfs 1 p = chars.map (fun c => p ++ [c]) := by
  show chars.flatMap (fun c => dfs 0 (p ++ [c])) = chars.map (fun c => p ++ [c])
  exact flatMap_singleton_eq_map chars (fun c => p ++ [c])

theorem labelLengthGo_ge (count : Nat) :
    ∀ (fuel l : Nat), count ≤ 14 ^ (l + fuel) → count ≤ 14 ^ labelLengthGo count fuel l := by
  intro fuel
  induction fuel with
  | zero => intro l h; simpa [labelLengthGo] using h
  | succ f ih =>
    intro l h
    show count ≤ 14 ^ (if 14 ^ l < count then labelLengthGo count f (l + 1) else l)
    by_cases hc : 14 ^ l < count
    · rw [if_pos hc]
      exact ih (l + 1) (by rw [show l + 1 + f = l + (f + 1) by omega]; exact h)
    · rw [if_neg hc]; omega

theorem labelLengthGo_min (count : Nat) :
    ∀ (fuel l : Nat), 1 ≤ l → (∀ j, 1 ≤ j → j < l → 14 ^ j < count) →
      1 ≤ labelLengthGo count fuel l ∧
        ∀ j, 1 ≤ j → j < labelLengthGo count fuel l → 14 ^ j < count := by
  intro fuel
  induction fuel with
  | zero =>
    intro l h1 hj
    exact ⟨h1, hj⟩
  | succ f ih =>
    intro l h1 hj
    have hgo : labelLengthGo count (f + 1) l
        = if 14 ^ l < count then labelLengthGo count f (l + 1) else l := rfl
    rw [hgo]
    by_cases hc : 14 ^ l < count
    · rw [if_pos hc]
      refine ih (l + 1) (by omega) ?_
      intro j hj1 hjl
      rcases Nat.lt_or_ge j l with h | h
      · exact hj j hj1 h
      · have : j = l := by omega
        rw [this]; exact hc
    · rw [if_neg hc]
      exact ⟨h1, hj⟩

theorem labelLength_ge (count : Nat) : count ≤ 14 ^ labelLength count := by
  apply labelLengthGo_ge
  have h2 : count < 2 ^ count := Nat.lt_two_pow count
  have h14 : 2 ^ count ≤ 14 ^ count := Nat.pow_le_pow_left (by omega) count
  have hmono : 14 ^ count ≤ 14 ^ (1 + count) :=
    Nat.pow_le_pow_right (by omega) (by omega)
  omega

theorem labelLength_pos (count : Nat) : 1 ≤ labelLength count :=
  (labelLengthGo_min count count 1 le_rfl (by omega)).1

theorem labelLength_min (count : Nat) :
    ∀ m, 1 ≤ m → count ≤ 14 ^ m → labelLength count ≤ m := by
  intro m hm hcount
  by_contra hgt
  unfold labelLength at hgt
  have := (labelLengthGo_min count count 1 le_rfl (by omega)).2 m hm (by omega)
  omega

theorem labelLength_eq_one (count : Nat) (h : count ≤ 14) : labelLength count = 1 := by
  have h1 := labelLength_min count 1 le_rfl (by simpa using h)
  have h2 := labelLength_pos count
  omega

theorem labelList_eq (count : Nat) :
    labelList count = (dfs (labelLength count) []).take count := by
  unfold labelList
  by_cases h1 : labelLength count = 1
  · rw [if_pos h1, h1, dfs_one]
    simp [List.map_take]
  · rw [if_neg h1]
    have hpos : 0 < count := by
      by_contra h0
      have : count ≤ 14 := by omega
      exact h1 (labelLength_eq_one count this)
    rw [recBuild_spec (labelLength count) count [] [] (by simpa using hpos)]
    simp

theorem length_labelList (count : Nat) : (labelList count).length = count := by
  rw [labelList_eq, List.length_take, length_dfs]
  have := labelLength_ge count
  omega

theorem nodup_labelList (count : Nat) : (labelList count).Nodup := by
  rw [labelList_eq]
  exact (nodup_dfs _ []).sublist (List.take_sublist _ _)

theorem mem_labelList_length (count : Nat) :
    ∀ s ∈ labelList count, s.length = labelLength count := by
  intro s hs
  rw [labelList_eq] at hs
  obtain ⟨t, hst, hlen⟩ := mem_dfs (List.take_subset _ _ hs)
  simpa [hst] using hlen

/-- C1. For a filtered element mapping of size `n > 0`, `generate_hint_labels`
returns a mapping of exactly `n` distinct labels over the 14-symbol alphabet
`SADFJKLEWCMPGH`, all of the minimal length `L` with `14 ^ L ≥ n` (`L = 1`
for `n ≤ 14`), the labels being the first `n` fixed-length strings in
depth-first alphabet order, assigned to the elements in insertion order;
for `n = 0` it returns the empty mapping. -/
theorem generate_hint_labels_correct (hints : List (List Char × Child)) :
    (hints = [] → generate_hint_labels hints = []) ∧
    (hints ≠ [] →
      (generate_hint_labels hints).length = hints.length ∧
      (generate_hint_labels hints).map Prod.fst
        = (dfs (labelLength hints.length) []).take hints.length ∧
      (generate_hint_labels hints).map Prod.snd = hints.map Prod.snd ∧
      ((generate_hint_labels hints).map Prod.fst).Nodup ∧
      (∀ s ∈ (generate_hint_labels hints).map Prod.fst,
        s.length = labelLength hints.length) ∧
      hints.length ≤ 14 ^ labelLength hints.length ∧
      (∀ m, 1 ≤ m → hints.length ≤ 14 ^ m → labelLength hints.length ≤ m) ∧
      (hints.length ≤ 14 → labelLength hints.length = 1)) := by
  constructor
  · intro h
    subst h
    rfl
  · intro _
    have hlen : (labelList hints.length).length = (hints.map Prod.snd).length := by
      rw [length_labelList, List.length_map]
    have hfst : (generate_hint_labels hints).map Prod.fst = labelList hints.length :=
      List.map_fst_zip _ _ (le_of_eq hlen)
    have hsnd : (generate_hint_labels hints).map Prod.snd = hints.map Prod.snd :=
      List.map_snd_zip _ _ (le_of_eq hlen.symm)
    refine ⟨?_, ?_, hsnd, ?_, ?_, labelLength_ge hints.length,
      labelLength_min hints.length, labelLength_eq_one hints.length⟩
    · unfold generate_hint_labels
      rw [List.length_zip, hlen]
      simp
    · rw [hfst, labelList_eq]
    · rw [hfst]; exact nodup_labelList _
    · rw [hfst]; exact mem_labelList_length _

/-- Witness for C1 at a concrete 3-element mapping. -/
def childW : Child :=
  { width := 30, height := 20, rx := 10, ry := 10, ax := 110, ay := 210,
    role := [], name := [] }

def hintsW : List (List Char × Child) := [(['a'], childW), (['b'], childW), (['c'], childW)]

theorem generate_hint_labels_correct_witness :
    hintsW ≠ [] ∧
    (generate_hint_labels hintsW).map Prod.fst = [['S'], ['A'], ['D']] := by
  have h := (generate_hint_labels_correct hintsW).2 (by decide)
  refine ⟨by decide, ?_⟩
  rw [h.2.1]
  decide

/-! ## Element filtering (`filter_important_hints`) -/

/-- Python's `round(x / 10)` for an integer coordinate `x`: division by 10
rounded to the nearest integer, ties to the even neighbour (banker's
rounding, as in Python 3). -/
def pyRound10 (x : Int) : Int :=
  let q := Int.fdiv x 10
  let r := x - 10 * q
  if r < 5 then q else if 5 < r then q + 1 else if q % 2 = 0 then q else q + 1

/-- Python's `str.lower()`. -/
def lowerStr (s : List Char) : List Char := s.map Char.toLower

/-- Python's `str.strip()`: drop whitespace from both ends. -/
def pyStrip (s : List Char) : List Char :=
  ((s.dropWhile Char.isWhitespace).reverse.dropWhile Char.isWhitespace).reverse

/-- The `skip_keywords` tuple of `filter_important_hints`. -/
def skip_keywords : List (List Char) :=
  ["separator".toList, "filler".toList, "scroll bar".toList, "status bar".toList,
    "decoration".toList, "frame".toList, "border".toList]

/-- The `click_keywords` tuple of `filter_important_hints`. -/
def click_keywords : List (List Char) :=
  ["button".toList, "link".toList, "menu".toList, "tab".toList, "entry".toList,
    "text".toList, "combo".toList, "check".toList, "radio".toList, "toggle".toList,
    "tool".toList, "item".toList, "cell".toList, "option".toList, "choice".toList]

/-- `any(k in role for k in skip_keywords)` (substring containment). -/
def roleSkip (role : List Char) : Bool :=
  skip_keywords.any (fun k => decide (k <:+: role))

/-- `is_clickable = True if not role else any(k in role for k in click_keywords)`. -/
def roleClickable (role : List Char) : Bool :=
  if role = [] then true else click_keywords.any (fun k => decide (k <:+: role))

/-- The spatial dedup bucket `pos_key = (round(x / 10), round(y / 10))`. -/
def bucket (c : Child) : Int × Int := (pyRound10 c.rx, pyRound10 c.ry)

/-- The per-element conditions of `filter_important_hints` that do not involve
the `seen` set: minimum size, bounds, role-skip, and the inclusion condition. -/
def eligible (W H : Int) (c : Child) : Prop :=
  ¬ (c.width < 8 ∨ c.height < 8) ∧
  ¬ (c.rx < -c.width ∨ c.ry < -c.height ∨ c.rx > W + c.width ∨ c.ry > H + c.height) ∧
  ¬ roleSkip (lowerStr c.role) = true ∧
  (roleClickable (lowerStr c.role) = true ∨
    (pyStrip c.name ≠ [] ∧ c.width > 20 ∧ c.height > 15) ∨
    (c.width > 40 ∧ c.height > 20))

instance (W H : Int) (c : Child) : Decidable (eligible W H c) := by
  unfold eligible; infer_instance

/-- One iteration of the `for key, child in hints.items()` loop of
`filter_important_hints`; state is `(seen, important_hints)`.
(The local Python variables `role`, `name`, `is_clickable`, `pos_key` are
inlined.) -/
def filterStep (W H : Int) (st : List (Int × Int) × List (List Char × Child))
    (kc : List Char × Child) : List (Int × Int) × List (List Char × Child) :=
  if kc.2.width < 8 ∨ kc.2.height < 8 then st
  else if kc.2.rx < -kc.2.width ∨ kc.2.ry < -kc.2.height ∨
      kc.2.rx > W + kc.2.width ∨ kc.2.ry > H + kc.2.height then st
  else if roleSkip (lowerStr kc.2.role) then st
  else if (pyRound10 kc.2.rx, pyRound10 kc.2.ry) ∈ st.1 then st
  else if roleClickable (lowerStr kc.2.role) = true ∨
      (pyStrip kc.2.name ≠ [] ∧ kc.2.width > 20 ∧ kc.2.height > 15) ∨
      (kc.2.width > 40 ∧ kc.2.height > 20) then
    ((pyRound10 kc.2.rx, pyRound10 kc.2.ry) :: st.1, st.2 ++ [kc])
  else st

/-- `filter_important_hints`: fold the loop body over the mapping in insertion
order, starting from empty `seen` and empty `important_hints`. -/
def filter_important_hints (W H : Int) (hints : List (List Char × Child)) :
    List (List Char × Child) :=
  (hints.foldl (filterStep W H) ([], [])).2

theorem filterStep_eq (W H : Int) (st : List (Int × Int) × List (List Char × Child))
    (kc : List Char × Child) :
    filterStep W H st kc =
      if eligible W H kc.2 ∧ bucket kc.2 ∉ st.1 then (bucket kc.2 :: st.1, st.2 ++ [kc])
      else st := by
  by_cases h1 : kc.2.width < 8 ∨ kc.2.height < 8
  · rw [show filterStep W H st kc = st from by rw [filterStep, if_pos h1],
      if_neg (fun hc => hc.1.1 h1)]
  · by_cases h2 : kc.2.rx < -kc.2.width ∨ kc.2.ry < -kc.2.height ∨
        kc.2.rx > W + kc.2.width ∨ kc.2.ry > H + kc.2.height
    · rw [show filterStep W H st kc = st from by rw [filterStep, if_neg h1, if_pos h2],
        if_neg (fun hc => hc.1.2.1 h2)]
    · by_cases h3 : roleSkip (lowerStr kc.2.role) = true
      · rw [show filterStep W H st kc = st from by
          rw [filterStep, if_neg h1, if_neg h2, if_pos h3],
          if_neg (fun hc => hc.1.2.2.1 h3)]
      · by_cases h4 : (pyRound10 kc.2.rx, pyRound10 kc.2.ry) ∈ st.1
        · rw [show filterStep W H st kc = st from by
            rw [filterStep, if_neg h1, if_neg h2, if_neg h3, if_pos h4],
            if_neg (fun hc => hc.2 h4)]
        · by_cases h5 : roleClickable (lowerStr kc.2.role) = true ∨
              (pyStrip kc.2.name ≠ [] ∧ kc.2.width > 20 ∧ kc.2.height > 15) ∨
              (kc.2.width > 40 ∧ kc.2.height > 20)
          · rw [show filterStep W H st kc
                = ((pyRound10 kc.2.rx, pyRound10 kc.2.ry) :: st.1, st.2 ++ [kc]) from by
              rw [filterStep, if_neg h1, if_neg h2, if_neg h3, if_neg h4, if_pos h5],
              if_pos ⟨⟨h1, h2, h3, h5⟩, h4⟩]
            rfl
          · rw [show filterStep W H st kc = st from by
              rw [filterStep, if_neg h1, if_neg h2, if_neg h3, if_neg h4, if_neg h5],
              if_neg (fun hc => h5 hc.1.2.2.2)]

/-- Specification-side recursion equivalent to the filtering fold. -/
def filterRec (W H : Int) : List (Int × Int) → List (List Char × Child) →
    List (List Char × Child)
  | _, [] => []
  | seen, kc :: rest =>
      if eligible W H kc.2 ∧ bucket kc.2 ∉ seen then
        kc :: filterRec W H (bucket kc.2 :: seen) rest
      else filterRec W H seen rest

theorem foldl_filterStep_snd (W H : Int) :
    ∀ (hints : List (List Char × Child)) (seen : List (Int × Int))
      (acc : List (List Char × Child)),
      (hints.foldl (filterStep W H) (seen, acc)).2 = acc ++ filterRec W H seen hints := by
  intro hints
  induction hints with
  | nil => intro seen acc; simp [filterRec]
  | cons kc rest ih =>
    intro seen acc
    rw [List.foldl_cons, filterStep_eq]
    by_cases hc : eligible W H kc.2 ∧ bucket kc.2 ∉ seen
    · rw [if_pos hc, ih, show filterRec W H seen (kc :: rest)
        = kc :: filterRec W H (bucket kc.2 :: seen) rest from by rw [filterRec, if_pos hc]]
      simp
    · rw [if_neg hc, ih, show filterRec W H seen (kc :: rest)
        = filterRec W H seen rest from by rw [filterRec, if_neg hc]]

theorem filter_eq_filterRec (W H : Int) (hints : List (List Char × Child)) :
    filter_important_hints W H hints = filterRec W H [] hints := by
  unfold filter_important_hints
  rw [foldl_filterStep_snd]
  rfl

theorem filterRec_subset (W H : Int) :
    ∀ (hints : List (List Char × Child)) (seen : List (Int × Int)),
      filterRec W H seen hints ⊆ hints := by
  intro hints
  induction hints with
  | nil => intro seen; simp [filterRec]
  | cons kc rest ih =>
    intro seen
    rw [filterRec]
    by_cases hc : eligible W H kc.2 ∧ bucket kc.2 ∉ seen
    · rw [if_pos hc]
      exact List.cons_subset_cons kc (ih _)
    · rw [if_neg hc]
      exact (ih seen).trans (List.subset_cons_self kc rest)

theorem mem_filterRec (W H : Int) :
    ∀ (hints : List (List Char × Child)) (seen : List (Int × Int))
      (kc : List Char × Child), kc ∈ filterRec W H seen hints →
      eligible W H kc.2 ∧ bucket kc.2 ∉ seen := by
  intro hints
  induction hints with
  | nil => intro seen kc h; simp [filterRec] at h
  | cons hd rest ih =>
    intro seen kc h
    rw [filterRec] at h
    by_cases hc : eligible W H hd.2 ∧ bucket hd.2 ∉ seen
    · rw [if_pos hc] at h
      rcases List.mem_cons.mp h with rfl | htail
      · exact hc
      · have := ih _ _ htail
        exact ⟨this.1, fun hmem => this.2 (List.mem_cons_of_mem _ hmem)⟩
    · rw [if_neg hc] at h
      exact ih _ _ h

theorem nodup_bucket_filterRec (W H : Int) :
    ∀ (hints : List (List Char × Child)) (seen : List (Int × Int)),
      ((filterRec W H seen hints).map (fun kc => bucket kc.2)).Nodup := by
  intro hints
  induction hints with
  | nil => intro seen; simp [filterRec]
  | cons hd rest ih =>
    intro seen
    rw [filterRec]
    by_cases hc : eligible W H hd.2 ∧ bucket hd.2 ∉ seen
    · rw [if_pos hc, List.map_cons, List.nodup_cons]
      refine ⟨?_, ih _⟩
      intro hmem
      obtain ⟨kc, hkc, hbeq⟩ := List.mem_map.mp hmem
      exact (mem_filterRec W H rest _ kc hkc).2 (by rw [hbeq]; exact List.mem_cons_self _ _)
    · rw [if_neg hc]
      exact ih seen

theorem filterRec_eq_self (W H : Int) :
    ∀ (hints : List (List Char × Child)) (seen : List (Int × Int)),
      (∀ kc ∈ hints, eligible W H kc.2) →
      ((hints.map (fun kc => bucket kc.2)).Nodup) →
      (∀ kc ∈ hints, bucket kc.2 ∉ seen) →
      filterRec W H seen hints = hints := by
  intro hints
  induction hints with
  | nil => intro seen _ _ _; rfl
  | cons hd rest ih =>
    intro seen helig hnd hseen
    rw [filterRec,
      if_pos ⟨helig hd (List.mem_cons_self _ _), hseen hd (List.mem_cons_self _ _)⟩]
    congr 1
    rw [List.map_cons, List.nodup_cons] at hnd
    refine ih _ (fun kc h => helig kc (List.mem_cons_of_mem _ h)) hnd.2 ?_
    intro kc hkc
    rw [List.mem_cons]
    push_neg
    refine ⟨?_, hseen kc (List.mem_cons_of_mem _ hkc)⟩
    intro heq
    exact hnd.1 (heq ▸ List.mem_map_of_mem (fun kc => bucket kc.2) hkc)

/-- C5. The element filter is idempotent: filtering its own output with the
same overlay bounds returns that output unchanged. -/
theorem filter_important_hints_idempotent (W H : Int) (hints : List (List Char × Child)) :
    filter_important_hints W H (filter_important_hints W H hints)
      = filter_important_hints W H hints := by
  rw [filter_eq_filterRec W H (filter_important_hints W H hints), filter_eq_filterRec W H hints]
  refine filterRec_eq_self W H _ [] ?_ ?_ ?_
  · intro kc h
    exact (mem_filterRec W H hints [] kc h).1
  · exact nodup_bucket_filterRec W H hints []
  · intro kc _
    simp

theorem mem_filterRec_iff (W H : Int) :
    ∀ (pre : List (List Char × Child)) (x : List Char × Child)
      (post : List (List Char × Child)) (seen : List (Int × Int)),
      (pre ++ x :: post).Nodup →
      (x ∈ filterRec W H seen (pre ++ x :: post) ↔
        eligible W H x.2 ∧ bucket x.2 ∉ seen ∧
          ∀ y ∈ pre, bucket y.2 = bucket x.2 → ¬ eligible W H y.2) := by
  intro pre
  induction pre with
  | nil =>
    intro x post seen hnd
    rw [List.nil_append, filterRec]
    by_cases hc : eligible W H x.2 ∧ bucket x.2 ∉ seen
    · rw [if_pos hc]
      constructor
      · intro _
        exact ⟨hc.1, hc.2, by simp⟩
      · intro _
        exact List.mem_cons_self x _
    · rw [if_neg hc]
      constructor
      · intro hmem
        have hx_post : x ∈ post := filterRec_subset W H post seen hmem
        have := (List.nodup_cons.mp hnd).1
        exact absurd hx_post this
      · intro hrhs
        exact absurd ⟨hrhs.1, hrhs.2.1⟩ hc
  | cons y pre' ih =>
    intro x post seen hnd
    rw [List.cons_append, filterRec]
    have hnd' : (pre' ++ x :: post).Nodup := (List.nodup_cons.mp hnd).2
    have hxney : x ≠ y := by
      intro heq
      have : y ∈ pre' ++ x :: post := by
        rw [← heq]
        exact List.mem_append_right _ (List.mem_cons_self _ _)
      exact (List.nodup_cons.mp hnd).1 this
    by_cases hc : eligible W H y.2 ∧ bucket y.2 ∉ seen
    · rw [if_pos hc]
      rw [List.mem_cons]
      by_cases hby : bucket y.2 = bucket x.2
      · constructor
        · rintro (heq | hmem)
          · exact absurd heq hxney
          · have := (ih x post (bucket y.2 :: seen) hnd').mp hmem
            exact absurd (hby ▸ List.mem_cons_self _ _) this.2.1
        · intro hrhs
          exact absurd hc.1 (hrhs.2.2 y (List.mem_cons_self _ _) hby)
      · constructor
        · rintro (heq | hmem)
          · exact absurd heq hxney
          · have hr := (ih x post (bucket y.2 :: seen) hnd').mp hmem
            refine ⟨hr.1, fun hmem2 => hr.2.1 (List.mem_cons_of_mem _ hmem2), ?_⟩
            intro z hz hbz
            rcases List.mem_cons.mp hz with rfl | hz'
            · exact absurd hbz hby
            · exact hr.2.2 z hz' hbz
        · intro hrhs
          refine Or.inr ((ih x post (bucket y.2 :: seen) hnd').mpr ?_)
          refine ⟨hrhs.1, ?_, ?_⟩
          · intro hmem
            rcases List.mem_cons.mp hmem with heq | hmem'
            · exact hby heq.symm
            · exact hrhs.2.1 hmem'
          · intro z hz hbz
            exact hrhs.2.2 z (List.mem_cons_of_mem _ hz) hbz
    · rw [if_neg hc]
      rw [ih x post seen hnd']
      constructor
      · intro hr
        refine ⟨hr.1, hr.2.1, ?_⟩
        intro z hz hbz
        rcases List.mem_cons.mp hz with rfl | hz'
        · intro helig
          rcases not_and_or.mp hc with h | h
          · exact h helig
          · rw [not_not] at h
            exact hr.2.1 (hbz ▸ h)
        · exact hr.2.2 z hz' hbz
      · intro hr
        exact ⟨hr.1, hr.2.1, fun z hz hbz => hr.2.2 z (List.mem_cons_of_mem _ hz) hbz⟩

/-- C6. No two elements surviving the filter share the rounded dedup bucket
`(round(x/10), round(y/10))`, and an element survives exactly when it passes
the per-element checks and no earlier same-bucket element passes them
(first seen wins). -/
theorem filter_important_hints_bucket_nodup (W H : Int) (hints : List (List Char × Child))
    (hnd : hints.Nodup) :
    ((filter_important_hints W H hints).map (fun kc => bucket kc.2)).Nodup ∧
    ∀ (pre : List (List Char × Child)) (x : List Char × Child)
      (post : List (List Char × Child)), hints = pre ++ x :: post →
      (x ∈ filter_important_hints W H hints ↔
        eligible W H x.2 ∧ ∀ y ∈ pre, bucket y.2 = bucket x.2 → ¬ eligible W H y.2) := by
  constructor
  · rw [filter_eq_filterRec]
    exact nodup_bucket_filterRec W H hints []
  · intro pre x post heq
    subst heq
    rw [filter_eq_filterRec]
    rw [mem_filterRec_iff W H pre x post [] hnd]
    exact ⟨fun h => ⟨h.1, h.2.2⟩, fun h => ⟨h.1, List.not_mem_nil _, h.2⟩⟩

/-- Witness data for C6: two eligible elements in the same dedup bucket. -/
def childC6a : Child :=
  { width := 30, height := 30, rx := 0, ry := 0, ax := 0, ay := 0,
    role := "button".toList, name := [] }

def childC6b : Child :=
  { width := 30, height := 30, rx := 2, ry := 1, ax := 2, ay := 1,
    role := "button".toList, name := [] }

def hintsC6 : List (List Char × Child) := [(['a'], childC6a), (['b'], childC6b)]

/-- Witness for C6: in `hintsC6` both elements pass all per-element checks and
share a bucket, so the second one is rejected by the dedup rule. -/
theorem filter_important_hints_bucket_nodup_witness :
    hintsC6.Nodup ∧ (['b'], childC6b) ∉ filter_important_hints 100 100 hintsC6 := by
  have hnd : hintsC6.Nodup := by decide
  refine ⟨hnd, ?_⟩
  intro hmem
  have hiff := (filter_important_hints_bucket_nodup 100 100 hintsC6 hnd).2
    [(['a'], childC6a)] (['b'], childC6b) [] rfl
  have hr := hiff.mp hmem
  have : ¬ eligible 100 100 childC6a := by
    refine hr.2 (['a'], childC6a) (by decide) ?_
    decide
  exact this (by decide)


/-! ## Selection state machine (`update_hints`, `on_key_press`) -/

inductive MouseButton where
  | LEFT
  | RIGHT
deriving DecidableEq

/-- The shared `mouse_action` dictionary: all fields optional until set. -/
structure MouseAction where
  action : Option (List Char)
  button : Option MouseButton
  repeatCount : Option Nat
  x : Option Int
  y : Option Int
deriving DecidableEq

/-- A key event after `translate_keyboard_state`: the translated `keyval`,
`Gdk.keyval_to_lower(keyval)`, and the effective modifier mask. -/
structure KeyEvent where
  keyval : Nat
  key_lower : Nat
  mods : Nat
deriving DecidableEq

/-- The configuration options read by the overlay constructor. -/
structure Config where
  exit_key : Nat
  hover_modifier : Nat
  grab_modifier : Nat

/-- `Gdk.KEY_Escape`. -/
def kEscape : Nat := 65307

/-- `Gdk.KEY_BackSpace`. -/
def kBackSpace : Nat := 65288

def actClick : List Char := "click".toList

def actHover : List Char := "hover".toList

def actGrab : List Char := "grab".toList

/-- The mutable overlay state: live label mapping, selector prefix, offset
cache, shared mouse action, and whether the overlay has been torn down. -/
structure OverlayState where
  hints : List (List Char × Child)
  hint_selector_state : List Char
  hints_drawn_offsets : List (List Char × (Int × Int))
  mouse_action : MouseAction
  done : Bool
deriving DecidableEq

/-- `update_hints`: filter the live labels by
`key.upper().startswith(hint_selector_state + next_char.upper())` and commit
the narrowed mapping and extended prefix only if the result is non-empty
(`hint_upercase` is `True` in the source). -/
def update_hints (s : OverlayState) (next_char : Char) : OverlayState :=
  if s.hints.filter
      (fun kv => (s.hint_selector_state ++ [next_char.toUpper]).isPrefixOf
        (kv.1.map Char.toUpper)) ≠ [] then
    { s with
      hints := s.hints.filter
        (fun kv => (s.hint_selector_state ++ [next_char.toUpper]).isPrefixOf
          (kv.1.map Char.toUpper)),
      hint_selector_state := s.hint_selector_state ++ [next_char.toUpper] }
  else s

/-- `int(str(mouse_action.get("repeat", "")) + ch)`: append a decimal digit to
the accumulated repeat count. -/
def digitAppend (r : Option Nat) (ch : Char) : Nat :=
  match r with
  | some n => n * 10 + (ch.toNat - 48)
  | none => ch.toNat - 48

/-- `if mods == self.hover_modifier: mouse_action["action"] = "hover"`. -/
def hoverPhase (cfg : Config) (s : OverlayState) (e : KeyEvent) : OverlayState :=
  if e.mods = cfg.hover_modifier then
    { s with mouse_action := { s.mouse_action with action := some actHover } }
  else s

/-- `if mods == self.grab_modifier: mouse_action["action"] = "grab"`. -/
def grabPhase (cfg : Config) (s : OverlayState) (e : KeyEvent) : OverlayState :=
  if e.mods = cfg.grab_modifier then
    { s with mouse_action := { s.mouse_action with action := some actGrab } }
  else s

/-- `if key_lower != keyval: mouse_action.update(action="click", button=RIGHT)`. -/
def shiftPhase (s : OverlayState) (e : KeyEvent) : OverlayState :=
  if e.key_lower ≠ e.keyval then
    { s with mouse_action :=
      { s.mouse_action with action := some actClick, button := some MouseButton.RIGHT } }
  else s

/-- `if ch.isalpha(): self.update_hints(ch)`. -/
def alphaPhase (s : OverlayState) (e : KeyEvent) : OverlayState :=
  if (Char.ofNat e.key_lower).isAlpha then update_hints s (Char.ofNat e.key_lower) else s

/-- `if ch.isdigit(): mouse_action["repeat"] = int(str(...) + ch)`. -/
def digitPhase (s : OverlayState) (e : KeyEvent) : OverlayState :=
  if (Char.ofNat e.key_lower).isDigit then
    { s with mouse_action := { s.mouse_action with
      repeatCount := some (digitAppend s.mouse_action.repeatCount (Char.ofNat e.key_lower)) } }
  else s

/-- The modifier/alphabetic/digit section of `on_key_press`, in source order. -/
def key_phases (cfg : Config) (s : OverlayState) (e : KeyEvent) : OverlayState :=
  digitPhase (alphaPhase (shiftPhase (grabPhase cfg (hoverPhase cfg s e) e) e) e) e

/-- The terminal `if len(self.hints) == 1` block of `on_key_press`: on a
unique, fully-typed label, tear down the overlay and populate the mouse
action from the element's absolute position plus the cached drawn offset
(the source calls `destroy()` before the offset lookup, so a missing cache
entry still tears down but leaves the action unpopulated). -/
def resolveCheck (s : OverlayState) : OverlayState :=
  match s.hints with
  | [kv] =>
    if kv.1.map Char.toUpper = s.hint_selector_state then
      match List.lookup kv.1 s.hints_drawn_offsets with
      | some off =>
          { s with
            done := true,
            mouse_action :=
              { action := some (s.mouse_action.action.getD actClick),
                button := some (s.mouse_action.button.getD MouseButton.LEFT),
                repeatCount := some (s.mouse_action.repeatCount.getD 1),
                x := some (kv.2.ax + off.1),
                y := some (kv.2.ay + off.2) } }
      | none => { s with done := true }
    else s
  | _ => s

/-- `on_key_press`: escape/exit key quits; backspace with a non-empty prefix
drops its last character and rebuilds the labels from the full `all_hints`
through the filter and the generator; otherwise the modifier, alphabetic and
digit phases run followed by the unique-match resolution check. A torn-down
overlay processes no further events. -/
def on_key_press (cfg : Config) (W H : Int) (all_hints : List (List Char × Child))
    (s : OverlayState) (e : KeyEvent) : OverlayState :=
  if s.done then s
  else if e.keyval = kEscape ∨ e.key_lower = cfg.exit_key then { s with done := true }
  else if e.keyval = kBackSpace ∧ s.hint_selector_state ≠ [] then
    { s with hint_selector_state := s.hint_selector_state.dropLast,
             hints := generate_hint_labels (filter_important_hints W H all_hints) }
  else resolveCheck (key_phases cfg s e)

/-- The overlay state after construction: labels generated from the filtered
element set, empty selector, empty offset cache. -/
def initState (W H : Int) (all_hints : List (List Char × Child)) (ma0 : MouseAction) :
    OverlayState :=
  { hints := generate_hint_labels (filter_important_hints W H all_hints),
    hint_selector_state := [], hints_drawn_offsets := [], mouse_action := ma0, done := false }

/-- Process a sequence of key events from the freshly constructed overlay. -/
def runKeys (cfg : Config) (W H : Int) (all_hints : List (List Char × Child))
    (ma0 : MouseAction) (es : List KeyEvent) : OverlayState :=
  es.foldl (on_key_press cfg W H all_hints) (initState W H all_hints ma0)

theorem hoverPhase_core (cfg : Config) (s : OverlayState) (e : KeyEvent) :
    (hoverPhase cfg s e).hints = s.hints ∧
    (hoverPhase cfg s e).hint_selector_state = s.hint_selector_state ∧
    (hoverPhase cfg s e).hints_drawn_offsets = s.hints_drawn_offsets ∧
    (hoverPhase cfg s e).done = s.done ∧
    (hoverPhase cfg s e).mouse_action.x = s.mouse_action.x ∧
    (hoverPhase cfg s e).mouse_action.y = s.mouse_action.y := by
  unfold hoverPhase
  split_ifs <;> exact ⟨rfl, rfl, rfl, rfl, rfl, rfl⟩

theorem grabPhase_core (cfg : Config) (s : OverlayState) (e : KeyEvent) :
    (grabPhase cfg s e).hints = s.hints ∧
    (grabPhase cfg s e).hint_selector_state = s.hint_selector_state ∧
    (grabPhase cfg s e).hints_drawn_offsets = s.hints_drawn_offsets ∧
    (grabPhase cfg s e).done = s.done ∧
    (grabPhase cfg s e).mouse_action.x = s.mouse_action.x ∧
    (grabPhase cfg s e).mouse_action.y = s.mouse_action.y := by
  unfold grabPhase
  split_ifs <;> exact ⟨rfl, rfl, rfl, rfl, rfl, rfl⟩

theorem shiftPhase_core (s : OverlayState) (e : KeyEvent) :
    (shiftPhase s e).hints = s.hints ∧
    (shiftPhase s e).hint_selector_state = s.hint_selector_state ∧
    (shiftPhase s e).hints_drawn_offsets = s.hints_drawn_offsets ∧
    (shiftPhase s e).done = s.done ∧
    (shiftPhase s e).mouse_action.x = s.mouse_action.x ∧
    (shiftPhase s e).mouse_action.y = s.mouse_action.y := by
  unfold shiftPhase
  split_ifs <;> exact ⟨rfl, rfl, rfl, rfl, rfl, rfl⟩

theorem digitPhase_core (s : OverlayState) (e : KeyEvent) :
    (digitPhase s e).hints = s.hints ∧
    (digitPhase s e).hint_selector_state = s.hint_selector_state ∧
    (digitPhase s e).hints_drawn_offsets = s.hints_drawn_offsets ∧
    (digitPhase s e).done = s.done ∧
    (digitPhase s e).mouse_action.x = s.mouse_action.x ∧
    (digitPhase s e).mouse_action.y = s.mouse_action.y := by
  unfold digitPhase
  split_ifs <;> exact ⟨rfl, rfl, rfl, rfl, rfl, rfl⟩

theorem update_hints_core (s : OverlayState) (c : Char) :
    (update_hints s c).hints_drawn_offsets = s.hints_drawn_offsets ∧
    (update_hints s c).done = s.done ∧
    (update_hints s c).mouse_action = s.mouse_action := by
  unfold update_hints
  split_ifs <;> exact ⟨rfl, rfl, rfl⟩

theorem update_hints_subset (s : OverlayState) (c : Char) :
    (update_hints s c).hints ⊆ s.hints := by
  unfold update_hints
  split_ifs with h
  · exact (List.filter_sublist _).subset
  · exact fun a ha => ha

theorem alphaPhase_core (s : OverlayState) (e : KeyEvent) :
    (alphaPhase s e).hints_drawn_offsets = s.hints_drawn_offsets ∧
    (alphaPhase s e).done = s.done ∧
    (alphaPhase s e).mouse_action = s.mouse_action ∧
    (alphaPhase s e).hints ⊆ s.hints := by
  unfold alphaPhase
  split_ifs with h
  · exact ⟨(update_hints_core s _).1, (update_hints_core s _).2.1,
      (update_hints_core s _).2.2, update_hints_subset s _⟩
  · exact ⟨rfl, rfl, rfl, fun a ha => ha⟩

theorem resolveCheck_core (s : OverlayState) :
    (resolveCheck s).hints = s.hints ∧
    (resolveCheck s).hint_selector_state = s.hint_selector_state ∧
    (resolveCheck s).hints_drawn_offsets = s.hints_drawn_offsets := by
  unfold resolveCheck
  split
  · split_ifs
    · split <;> exact ⟨rfl, rfl, rfl⟩
    · exact ⟨rfl, rfl, rfl⟩
  · exact ⟨rfl, rfl, rfl⟩

/-! ## Prefix narrowing invariants (C2, C3, C4) -/

/-- The label set obtained by filtering `orig` with "normalized label starts
with the prefix `sel`" (the spec's characterization of the live set). -/
def liveFilter (orig : List (List Char × Child)) (sel : List Char) :
    List (List Char × Child) :=
  orig.filter (fun kv => sel.isPrefixOf (kv.1.map Char.toUpper))

theorem isPrefixOf_of_append {sel ext t : List Char}
    (h : (sel ++ ext).isPrefixOf t = true) : sel.isPrefixOf t = true := by
  rw [List.isPrefixOf_iff_prefix] at h ⊢
  exact (List.prefix_append sel ext).trans h

theorem liveFilter_nil (orig : List (List Char × Child)) : liveFilter orig [] = orig := by
  unfold liveFilter
  rw [List.filter_eq_self]
  intro kv _
  rw [List.isPrefixOf_iff_prefix]
  exact List.nil_prefix

theorem liveFilter_extend (orig : List (List Char × Child)) (sel : List Char) (c : Char) :
    (liveFilter orig sel).filter
        (fun kv => (sel ++ [c]).isPrefixOf (kv.1.map Char.toUpper))
      = liveFilter orig (sel ++ [c]) := by
  unfold liveFilter
  rw [List.filter_filter]
  apply List.filter_congr
  intro kv _
  cases hext : (sel ++ [c]).isPrefixOf (kv.1.map Char.toUpper) with
  | false => simp [hext]
  | true => simp [hext, isPrefixOf_of_append hext]

theorem inv_transfer {orig : List (List Char × Child)} {s s2 : OverlayState}
    (hh : s2.hints = s.hints) (hs : s2.hint_selector_state = s.hint_selector_state)
    (hinv : s.hints = liveFilter orig s.hint_selector_state) :
    s2.hints = liveFilter orig s2.hint_selector_state := by
  rw [hh, hs]
  exact hinv

theorem update_hints_inv (orig : List (List Char × Child)) (s : OverlayState) (c : Char)
    (hinv : s.hints = liveFilter orig s.hint_selector_state) :
    (update_hints s c).hints = liveFilter orig (update_hints s c).hint_selector_state := by
  unfold update_hints
  split_ifs with h
  · show s.hints.filter _ = liveFilter orig (s.hint_selector_state ++ [c.toUpper])
    rw [hinv, liveFilter_extend]
  · exact hinv

theorem key_phases_inv (cfg : Config) (orig : List (List Char × Child))
    (s : OverlayState) (e : KeyEvent)
    (hinv : s.hints = liveFilter orig s.hint_selector_state) :
    (key_phases cfg s e).hints = liveFilter orig (key_phases cfg s e).hint_selector_state := by
  have i1 := inv_transfer (hoverPhase_core cfg s e).1 (hoverPhase_core cfg s e).2.1 hinv
  have i2 := inv_transfer (grabPhase_core cfg (hoverPhase cfg s e) e).1
    (grabPhase_core cfg (hoverPhase cfg s e) e).2.1 i1
  have i3 := inv_transfer (shiftPhase_core (grabPhase cfg (hoverPhase cfg s e) e) e).1
    (shiftPhase_core (grabPhase cfg (hoverPhase cfg s e) e) e).2.1 i2
  have i4 : (alphaPhase (shiftPhase (grabPhase cfg (hoverPhase cfg s e) e) e) e).hints
      = liveFilter orig
          ((alphaPhase (shiftPhase (grabPhase cfg (hoverPhase cfg s e) e) e) e).hint_selector_state) := by
    unfold alphaPhase
    split_ifs with ha
    · exact update_hints_inv orig _ _ i3
    · exact i3
  exact inv_transfer (digitPhase_core _ e).1 (digitPhase_core _ e).2.1 i4

theorem key_phases_hints_subset (cfg : Config) (s : OverlayState) (e : KeyEvent) :
    (key_phases cfg s e).hints ⊆ s.hints := by
  unfold key_phases
  rw [(digitPhase_core _ e).1]
  refine ((alphaPhase_core _ e).2.2.2).trans ?_
  rw [(shiftPhase_core _ e).1, (grabPhase_core cfg _ e).1, (hoverPhase_core cfg s e).1]
  exact fun a ha => ha

theorem key_phases_offsets (cfg : Config) (s : OverlayState) (e : KeyEvent) :
    (key_phases cfg s e).hints_drawn_offsets = s.hints_drawn_offsets := by
  unfold key_phases
  rw [(digitPhase_core _ e).2.2.1, (alphaPhase_core _ e).1,
    (shiftPhase_core _ e).2.2.1, (grabPhase_core cfg _ e).2.2.1,
    (hoverPhase_core cfg s e).2.2.1]

theorem on_key_press_no_bs_inv (cfg : Config) (W H : Int)
    (allH : List (List Char × Child)) (orig : List (List Char × Child))
    (s : OverlayState) (e : KeyEvent)
    (hbs : e.keyval ≠ kBackSpace)
    (hinv : s.hints = liveFilter orig s.hint_selector_state) :
    (on_key_press cfg W H allH s e).hints
      = liveFilter orig (on_key_press cfg W H allH s e).hint_selector_state := by
  unfold on_key_press
  split_ifs with hd hesc hbs2
  · exact hinv
  · exact hinv
  · exact absurd hbs2.1 hbs
  · obtain ⟨hrh, hrs, -⟩ := resolveCheck_core (key_phases cfg s e)
    rw [hrh, hrs]
    exact key_phases_inv cfg orig s e hinv

theorem on_key_press_subset (cfg : Config) (W H : Int) (allH : List (List Char × Child))
    (s : OverlayState) (e : KeyEvent)
    (h : s.hints ⊆ generate_hint_labels (filter_important_hints W H allH)) :
    (on_key_press cfg W H allH s e).hints
      ⊆ generate_hint_labels (filter_important_hints W H allH) := by
  unfold on_key_press
  split_ifs with hd hesc hbs2
  · exact h
  · exact h
  · exact fun a ha => ha
  · rw [(resolveCheck_core (key_phases cfg s e)).1]
    exact (key_phases_hints_subset cfg s e).trans h

theorem foldl_no_bs_inv (cfg : Config) (W H : Int) (allH : List (List Char × Child))
    (orig : List (List Char × Child)) :
    ∀ (es : List KeyEvent) (s : OverlayState), (∀ e ∈ es, e.keyval ≠ kBackSpace) →
      s.hints = liveFilter orig s.hint_selector_state →
      (es.foldl (on_key_press cfg W H allH) s).hints
        = liveFilter orig (es.foldl (on_key_press cfg W H allH) s).hint_selector_state := by
  intro es
  induction es with
  | nil => intro s _ hinv; exact hinv
  | cons e es ih =>
    intro s hes hinv
    rw [List.foldl_cons]
    exact ih _ (fun e2 he2 => hes e2 (List.mem_cons_of_mem _ he2))
      (on_key_press_no_bs_inv cfg W H allH orig s e (hes e (List.mem_cons_self _ _)) hinv)

theorem foldl_subset (cfg : Config) (W H : Int) (allH : List (List Char × Child)) :
    ∀ (es : List KeyEvent) (s : OverlayState),
      s.hints ⊆ generate_hint_labels (filter_important_hints W H allH) →
      (es.foldl (on_key_press cfg W H allH) s).hints
        ⊆ generate_hint_labels (filter_important_hints W H allH) := by
  intro es
  induction es with
  | nil => intro s h; exact h
  | cons e es ih =>
    intro s h
    rw [List.foldl_cons]
    exact ih _ (on_key_press_subset cfg W H allH s e h)

/-- C2 (amended). For keystroke sequences without backspace the live label
set is exactly the originally generated label set filtered by "normalized
label starts with the normalized accumulated prefix"; and after any
backspace key the live label set is a superset of the pre-backspace live
label set (a backspace with non-empty remaining prefix resets the live set
to the full regenerated label set, which is in general a strict superset of
the prefix-filtered set). -/
theorem selection_live_set_amended (cfg : Config) (W H : Int)
    (allH : List (List Char × Child)) (ma0 : MouseAction) :
    (∀ es : List KeyEvent, (∀ e ∈ es, e.keyval ≠ kBackSpace) →
      (runKeys cfg W H allH ma0 es).hints
        = liveFilter (generate_hint_labels (filter_important_hints W H allH))
            (runKeys cfg W H allH ma0 es).hint_selector_state) ∧
    (∀ (es : List KeyEvent) (e : KeyEvent),
      e.keyval = kBackSpace → e.key_lower = kBackSpace →
      (runKeys cfg W H allH ma0 es).hints
        ⊆ (on_key_press cfg W H allH (runKeys cfg W H allH ma0 es) e).hints) := by
  constructor
  · intro es hes
    refine foldl_no_bs_inv cfg W H allH _ es _ hes ?_
    show generate_hint_labels (filter_important_hints W H allH) = liveFilter _ []
    rw [liveFilter_nil]
  · intro es e hbs hbl
    have hsub : (runKeys cfg W H allH ma0 es).hints
        ⊆ generate_hint_labels (filter_important_hints W H allH) := by
      refine foldl_subset cfg W H allH es _ ?_
      exact fun a ha => ha
    generalize hs : runKeys cfg W H allH ma0 es = s at hsub
    unfold on_key_press
    split_ifs with hd hesc hbs2
    · exact fun a ha => ha
    · exact fun a ha => ha
    · exact hsub
    · rw [(resolveCheck_core (key_phases cfg s e)).1]
      have hna : (Char.ofNat e.key_lower).isAlpha = false := by
        rw [hbl]
        decide
      unfold key_phases
      rw [(digitPhase_core _ e).1]
      unfold alphaPhase
      rw [if_neg (by rw [hna]; exact fun h => Bool.noConfusion h)]
      rw [(shiftPhase_core _ e).1, (grabPhase_core cfg _ e).1, (hoverPhase_core cfg s e).1]
      exact fun a ha => ha

theorem resolveCheck_eq_self (s : OverlayState)
    (h : ∀ kv ∈ s.hints, kv.1.map Char.toUpper ≠ s.hint_selector_state) :
    resolveCheck s = s := by
  unfold resolveCheck
  split
  · rename_i kv heq
    rw [if_neg (h kv (by rw [heq]; exact List.mem_cons_self _ _))]
  · rfl

/-- C3. An alphabetic key whose candidate prefix matches no live label leaves
both the live label set and the selector prefix unchanged: the narrowing
step commits only on success. -/
theorem key_ignored_when_no_match (cfg : Config) (W H : Int)
    (allH : List (List Char × Child)) (s : OverlayState) (e : KeyEvent)
    (hdone : s.done = false)
    (hesc : e.keyval ≠ kEscape) (hexit : e.key_lower ≠ cfg.exit_key)
    (hbs : e.keyval ≠ kBackSpace)
    (halpha : (Char.ofNat e.key_lower).isAlpha = true)
    (hnomatch : s.hints.filter
      (fun kv => (s.hint_selector_state ++ [(Char.ofNat e.key_lower).toUpper]).isPrefixOf
        (kv.1.map Char.toUpper)) = []) :
    (on_key_press cfg W H allH s e).hints = s.hints ∧
    (on_key_press cfg W H allH s e).hint_selector_state = s.hint_selector_state := by
  unfold on_key_press
  rw [if_neg (by rw [hdone]; exact fun h => Bool.noConfusion h),
    if_neg (by rintro (h | h); exact hesc h; exact hexit h),
    if_neg (fun hc => hbs hc.1)]
  obtain ⟨hrh, hrs, -⟩ := resolveCheck_core (key_phases cfg s e)
  rw [hrh, hrs]
  have h1 := hoverPhase_core cfg s e
  have h2 := grabPhase_core cfg (hoverPhase cfg s e) e
  have h3 := shiftPhase_core (grabPhase cfg (hoverPhase cfg s e) e) e
  have h3h : (shiftPhase (grabPhase cfg (hoverPhase cfg s e) e) e).hints = s.hints := by
    rw [h3.1, h2.1, h1.1]
  have h3s : (shiftPhase (grabPhase cfg (hoverPhase cfg s e) e) e).hint_selector_state
      = s.hint_selector_state := by
    rw [h3.2.1, h2.2.1, h1.2.1]
  have h4 : alphaPhase (shiftPhase (grabPhase cfg (hoverPhase cfg s e) e) e) e
      = shiftPhase (grabPhase cfg (hoverPhase cfg s e) e) e := by
    unfold alphaPhase
    rw [if_pos halpha]
    unfold update_hints
    rw [if_neg (by rw [h3h, h3s, hnomatch]; exact fun hne => hne rfl)]
  unfold key_phases
  rw [h4, (digitPhase_core _ e).1, (digitPhase_core _ e).2.1, h3h, h3s]
  exact ⟨rfl, rfl⟩

/-- Witness data for C3: live labels `S`, `A` with empty prefix; the key `x`
matches no label. -/
def cfgW3 : Config := { exit_key := 113, hover_modifier := 1000, grab_modifier := 1001 }

def sW3 : OverlayState :=
  { hints := [(['S'], childW), (['A'], childW)],
    hint_selector_state := [],
    hints_drawn_offsets := [],
    mouse_action := { action := none, button := none, repeatCount := none, x := none, y := none },
    done := false }

def eW3 : KeyEvent := { keyval := 120, key_lower := 120, mods := 0 }

theorem key_ignored_when_no_match_witness :
    (on_key_press cfgW3 100 100 [] sW3 eW3).hints = sW3.hints ∧
    (on_key_press cfgW3 100 100 [] sW3 eW3).hint_selector_state
      = sW3.hint_selector_state :=
  key_ignored_when_no_match cfgW3 100 100 [] sW3 eW3 (by decide) (by decide) (by decide)
    (by decide) (by decide) (by decide)

/-- C4. A backspace with non-empty prefix drops the prefix's last character
and rebuilds the label set by re-running the filter on the original
unfiltered element set and regenerating labels from it (not from the
currently narrowed set); a backspace with empty prefix leaves the state
unchanged and triggers no rebuild. -/
theorem backspace_rebuild (cfg : Config) (W H : Int) (allH : List (List Char × Child))
    (s : OverlayState) (e : KeyEvent)
    (hdone : s.done = false)
    (hbs : e.keyval = kBackSpace) (hbl : e.key_lower = kBackSpace)
    (hexit : cfg.exit_key ≠ kBackSpace)
    (hhover : e.mods ≠ cfg.hover_modifier) (hgrab : e.mods ≠ cfg.grab_modifier)
    (hlab : ∀ kv ∈ s.hints, kv.1 ≠ []) :
    (s.hint_selector_state ≠ [] →
      on_key_press cfg W H allH s e =
        { s with
          hint_selector_state := s.hint_selector_state.dropLast,
          hints := generate_hint_labels (filter_important_hints W H allH) }) ∧
    (s.hint_selector_state = [] → on_key_press cfg W H allH s e = s) := by
  have hne : ¬ (e.keyval = kEscape ∨ e.key_lower = cfg.exit_key) := by
    rintro (h | h)
    · rw [hbs] at h
      exact absurd h (by decide)
    · rw [hbl] at h
      exact hexit h.symm
  constructor
  · intro hsel
    unfold on_key_press
    rw [if_neg (by rw [hdone]; exact fun h => Bool.noConfusion h), if_neg hne,
      if_pos ⟨hbs, hsel⟩]
  · intro hsel
    unfold on_key_press
    rw [if_neg (by rw [hdone]; exact fun h => Bool.noConfusion h), if_neg hne,
      if_neg (fun hc => hc.2 hsel)]
    have e1 : hoverPhase cfg s e = s := by
      unfold hoverPhase
      rw [if_neg hhover]
    have e2 : grabPhase cfg s e = s := by
      unfold grabPhase
      rw [if_neg hgrab]
    have e3 : shiftPhase s e = s := by
      unfold shiftPhase
      rw [if_neg (by rw [hbl, hbs]; exact fun hne2 => hne2 rfl)]
    have e4 : alphaPhase s e = s := by
      unfold alphaPhase
      rw [if_neg (by rw [hbl]; exact fun hc => Bool.noConfusion hc)]
    have e5 : digitPhase s e = s := by
      unfold digitPhase
      rw [if_neg (by rw [hbl]; exact fun hc => Bool.noConfusion hc)]
    unfold key_phases
    rw [e1, e2, e3, e4, e5]
    apply resolveCheck_eq_self
    intro kv hkv hmap
    apply hlab kv hkv
    rw [hsel] at hmap
    exact List.map_eq_nil_iff.mp hmap

/-- Witness data for C4. -/
def eW4 : KeyEvent := { keyval := 65288, key_lower := 65288, mods := 0 }

def sW4 : OverlayState :=
  { hints := [(['S'], childW)],
    hint_selector_state := ['S'],
    hints_drawn_offsets := [],
    mouse_action := { action := none, button := none, repeatCount := none, x := none, y := none },
    done := false }

def sW4e : OverlayState := { sW4 with hint_selector_state := [] }

theorem backspace_rebuild_witness :
    (on_key_press cfgW3 100 100 [] sW4 eW4 =
      { sW4 with
        hint_selector_state := List.dropLast ['S'],
        hints := generate_hint_labels (filter_important_hints 100 100 []) }) ∧
    on_key_press cfgW3 100 100 [] sW4e eW4 = sW4e := by
  constructor
  · exact (backspace_rebuild cfgW3 100 100 [] sW4 eW4 (by decide) (by decide) (by decide)
      (by decide) (by decide) (by decide) (by decide)).1 (by decide)
  · exact (backspace_rebuild cfgW3 100 100 [] sW4e eW4 (by decide) (by decide) (by decide)
      (by decide) (by decide) (by decide) (by decide)).2 (by decide)

/-- Counterexample data for C2: 197 eligible elements, forcing 3-character
labels, so two narrowing keys followed by a backspace leave a non-empty
prefix while the live set is the full regenerated label set. -/
def cfgC2 : Config := { exit_key := 113, hover_modifier := 1000, grab_modifier := 1001 }

def childC2 (i : Nat) : Child :=
  { width := 10, height := 10, rx := 20 * (i : Int), ry := 0, ax := 20 * (i : Int), ay := 0,
    role := "button".toList, name := [] }

def allHC2 : List (List Char × Child) :=
  (List.range 197).map (fun i => ([Char.ofNat (1000 + i)], childC2 i))

def maNone : MouseAction :=
  { action := none, button := none, repeatCount := none, x := none, y := none }

def keyS : KeyEvent := { keyval := 115, key_lower := 115, mods := 0 }

def keyBS : KeyEvent := { keyval := 65288, key_lower := 65288, mods := 0 }

def esC2 : List KeyEvent := [keyS, keyS, keyBS]

/-- Counterexample to C2 as stated: after `s`, `s`, backspace, the selector
prefix is `S` but the live label set is the full regenerated 197-label set,
not the 196-label set obtained by filtering the original labels with the
prefix `S`. -/
theorem selection_live_set_counterexample :
    ¬ ((runKeys cfgC2 5000 5000 allHC2 maNone esC2).hints
      = liveFilter (generate_hint_labels (filter_important_hints 5000 5000 allHC2))
          (runKeys cfgC2 5000 5000 allHC2 maNone esC2).hint_selector_state) := by
  decide

/-! ## Layout engine (`calculate_vimium_position`, the `on_draw` placement loop) -/

/-- A placed label rectangle. -/
structure Rect where
  x : Int
  y : Int
  w : Int
  h : Int
deriving DecidableEq

/-- `calculate_vimium_position`: anchor at the element's relative position
minus (5, 5), clamped into `[0, W - w] × [0, H - h]` by
`max(0, min(coord, bound - size))`. -/
def calculate_vimium_position (W H : Int) (c : Child) (w h : Int) : Int × Int :=
  (max 0 (min (c.rx - 5) (W - w)), max 0 (min (c.ry - 5) (H - h)))

/-- One iteration of the collision loop of `on_draw`: on overlap, push the
candidate below the placed rectangle; if that leaves the bottom edge, place
it above instead. -/
def collideStep (H w h x : Int) (y : Int) (r : Rect) : Int :=
  if x < r.x + r.w ∧ x + w > r.x ∧ y < r.y + r.h ∧ y + h > r.y then
    if r.y + r.h + 2 + h > H then r.y - h - 2 else r.y + r.h + 2
  else y

/-- The `for dx, dy, dw, dh in drawn` collision loop of `on_draw`: a single
pass over the already-placed rectangles, mutating only `y`. -/
def resolveCollisions (H : Int) (drawn : List Rect) (x y w h : Int) : Int :=
  drawn.foldl (collideStep H w h x) y

/-- Python dict assignment `d[k] = v`: overwrite in place or append. -/
def dictSet (m : List (List Char × (Int × Int))) (k : List Char) (v : Int × Int) :
    List (List Char × (Int × Int)) :=
  if m.any (fun p => p.1 = k) then m.map (fun p => if p.1 = k then (k, v) else p)
  else m ++ [(k, v)]

/-- One iteration of the draw loop of `on_draw` for the label `kv.1` of
element `kv.2`: hint width is the measured text width of the uppercased
label plus `2 * hint_padding_x` (padding 3), hint height is the fixed 13;
the drawn rectangle is appended and the label-center offset
`(x + w/2 - x0, y + h/2 - y0)` is cached (`w/2` is integer halving of the
source's float halving). State is `(drawn, hints_drawn_offsets)`. -/
def drawOne (W H : Int) (measure : List Char → Int)
    (st : List Rect × List (List Char × (Int × Int))) (kv : List Char × Child) :
    List Rect × List (List Char × (Int × Int)) :=
  let w := measure (kv.1.map Char.toUpper) + 2 * 3
  let h : Int := 13
  let p := calculate_vimium_position W H kv.2 w h
  let y := resolveCollisions H st.1 p.1 p.2 w h
  (st.1 ++ [{ x := p.1, y := y, w := w, h := h }],
    dictSet st.2 kv.1 (p.1 + w / 2 - kv.2.rx, y + h / 2 - kv.2.ry))

/-- `on_draw`: place every live label in insertion order, threading the
placed-rectangle list and the offset cache. -/
def on_draw (W H : Int) (measure : List Char → Int) (hints : List (List Char × Child))
    (offs0 : List (List Char × (Int × Int))) :
    List Rect × List (List Char × (Int × Int)) :=
  hints.foldl (drawOne W H measure) ([], offs0)

/-- A redraw of the overlay: recompute and cache the drawn offsets for the
current live labels (the placed rectangles themselves are transient). -/
def on_draw_state (W H : Int) (measure : List Char → Int) (s : OverlayState) :
    OverlayState :=
  { s with hints_drawn_offsets := (on_draw W H measure s.hints s.hints_drawn_offsets).2 }

theorem calc_pos_x_bounds (W H : Int) (c : Child) (w h : Int) (hwW : w ≤ W) :
    0 ≤ (calculate_vimium_position W H c w h).1 ∧
    (calculate_vimium_position W H c w h).1 + w ≤ W := by
  unfold calculate_vimium_position
  constructor
  · exact le_max_left 0 _
  · have h1 : max 0 (min (c.rx - 5) (W - w)) ≤ W - w :=
      max_le (by omega) (min_le_right _ _)
    omega

theorem calc_pos_y_bounds (W H : Int) (c : Child) (w h : Int) (hhH : h ≤ H) :
    0 ≤ (calculate_vimium_position W H c w h).2 ∧
    (calculate_vimium_position W H c w h).2 + h ≤ H := by
  unfold calculate_vimium_position
  constructor
  · exact le_max_left 0 _
  · have h1 : max 0 (min (c.ry - 5) (H - h)) ≤ H - h :=
      max_le (by omega) (min_le_right _ _)
    omega

theorem resolveCollisions_le (H : Int) :
    ∀ (drawn : List Rect) (x y w : Int),
      (∀ r ∈ drawn, r.h = 13 ∧ r.y + 13 ≤ H) → y + 13 ≤ H →
      resolveCollisions H drawn x y w 13 + 13 ≤ H := by
  intro drawn
  induction drawn with
  | nil => intro x y w _ hy; exact hy
  | cons r rs ih =>
    intro x y w hinv hy
    show resolveCollisions H rs x (collideStep H w 13 x y r) w 13 + 13 ≤ H
    refine ih x _ w (fun r2 h2 => hinv r2 (List.mem_cons_of_mem _ h2)) ?_
    have hr := hinv r (List.mem_cons_self _ _)
    unfold collideStep
    split_ifs with h1 h2
    · omega
    · omega
    · exact hy

/-- The invariant of the `on_draw` placement loop: every placed rectangle
has non-negative x, right edge within the overlay, fixed height 13, and
bottom edge within the overlay. -/
def rectInv (W H : Int) (drawn : List Rect) : Prop :=
  ∀ r ∈ drawn, 0 ≤ r.x ∧ r.x + r.w ≤ W ∧ r.h = 13 ∧ r.y + 13 ≤ H

theorem foldl_drawOne_inv (W H : Int) (measure : List Char → Int) (hH : 13 ≤ H) :
    ∀ (hints : List (List Char × Child)) (st : List Rect × List (List Char × (Int × Int))),
      (∀ kv ∈ hints, measure (kv.1.map Char.toUpper) + 2 * 3 ≤ W) →
      rectInv W H st.1 →
      rectInv W H (hints.foldl (drawOne W H measure) st).1 := by
  intro hints
  induction hints with
  | nil => intro st _ hinv; exact hinv
  | cons kv rest ih =>
    intro st hm hinv
    rw [List.foldl_cons]
    refine ih _ (fun kv2 h2 => hm kv2 (List.mem_cons_of_mem _ h2)) ?_
    intro r hr
    rw [show (drawOne W H measure st kv).1 = st.1 ++
        [{ x := (calculate_vimium_position W H kv.2 (measure (kv.1.map Char.toUpper) + 2 * 3) 13).1,
           y := resolveCollisions H st.1
             (calculate_vimium_position W H kv.2 (measure (kv.1.map Char.toUpper) + 2 * 3) 13).1
             (calculate_vimium_position W H kv.2 (measure (kv.1.map Char.toUpper) + 2 * 3) 13).2
             (measure (kv.1.map Char.toUpper) + 2 * 3) 13,
           w := measure (kv.1.map Char.toUpper) + 2 * 3, h := 13 }] from rfl] at hr
    rcases List.mem_append.mp hr with hold | hnew
    · exact hinv r hold
    · have hr1 := List.mem_singleton.mp hnew
      subst hr1
      have hx := calc_pos_x_bounds W H kv.2 (measure (kv.1.map Char.toUpper) + 2 * 3) 13
        (hm kv (List.mem_cons_self _ _))
      have hy := calc_pos_y_bounds W H kv.2 (measure (kv.1.map Char.toUpper) + 2 * 3) 13 hH
      have hcol := resolveCollisions_le H st.1
        (calculate_vimium_position W H kv.2 (measure (kv.1.map Char.toUpper) + 2 * 3) 13).1
        (calculate_vimium_position W H kv.2 (measure (kv.1.map Char.toUpper) + 2 * 3) 13).2
        (measure (kv.1.map Char.toUpper) + 2 * 3)
        (fun r2 h2 => ⟨(hinv r2 h2).2.2.1, (hinv r2 h2).2.2.2⟩) hy.2
      exact ⟨hx.1, hx.2, rfl, hcol⟩

/-- C7 (amended). For every element, the placed label rectangle always has
non-negative x, right edge within the overlay, and bottom edge within the
overlay (given hint width at most the overlay width and overlay height at
least the hint height 13), and the clamped base position before collision
resolution lies fully within the overlay; but the collision push-up step can
make the final y negative, so the placed rectangle's y is not always
non-negative (see the counterexample). -/
theorem layout_bounds_amended (W H : Int) (measure : List Char → Int)
    (hints : List (List Char × Child)) (offs0 : List (List Char × (Int × Int)))
    (hH : 13 ≤ H)
    (hm : ∀ kv ∈ hints, measure (kv.1.map Char.toUpper) + 2 * 3 ≤ W) :
    (∀ r ∈ (on_draw W H measure hints offs0).1,
      0 ≤ r.x ∧ r.x + r.w ≤ W ∧ r.y + r.h ≤ H) ∧
    (∀ (c : Child) (w h : Int), w ≤ W → h ≤ H →
      0 ≤ (calculate_vimium_position W H c w h).1 ∧
      (calculate_vimium_position W H c w h).1 + w ≤ W ∧
      0 ≤ (calculate_vimium_position W H c w h).2 ∧
      (calculate_vimium_position W H c w h).2 + h ≤ H) := by
  constructor
  · intro r hr
    have hinv0 : rectInv W H ([] : List Rect) :=
      fun r2 hmem => absurd hmem (List.not_mem_nil r2)
    obtain ⟨h1, h2, h3, h4⟩ :=
      foldl_drawOne_inv W H measure hH hints ([], offs0) hm hinv0 r hr
    exact ⟨h1, h2, by rw [h3]; exact h4⟩
  · intro c w h hw hh
    exact ⟨(calc_pos_x_bounds W H c w h hw).1, (calc_pos_x_bounds W H c w h hw).2,
      (calc_pos_y_bounds W H c w h hh).1, (calc_pos_y_bounds W H c w h hh).2⟩

/-- Witness data for C7 (amended), reused below as the counterexample. -/
def childC7a : Child :=
  { width := 10, height := 10, rx := 0, ry := 0, ax := 0, ay := 0,
    role := "button".toList, name := [] }

def childC7b : Child :=
  { width := 10, height := 10, rx := 0, ry := 11, ax := 0, ay := 11,
    role := "button".toList, name := [] }

def hintsC7 : List (List Char × Child) := [(['A'], childC7a), (['B'], childC7b)]

def measC7 : List Char → Int := fun _ => 10

theorem layout_bounds_amended_witness :
    ({ x := 0, y := 0, w := 16, h := 13 } : Rect) ∈ (on_draw 100 20 measC7 hintsC7 []).1 ∧
    (0 ≤ ({ x := 0, y := 0, w := 16, h := 13 } : Rect).x ∧
      ({ x := 0, y := 0, w := 16, h := 13 } : Rect).x
        + ({ x := 0, y := 0, w := 16, h := 13 } : Rect).w ≤ 100 ∧
      ({ x := 0, y := 0, w := 16, h := 13 } : Rect).y
        + ({ x := 0, y := 0, w := 16, h := 13 } : Rect).h ≤ 20) :=
  ⟨by decide,
    (layout_bounds_amended 100 20 measC7 hintsC7 [] (by decide) (by decide)).1
      { x := 0, y := 0, w := 16, h := 13 } (by decide)⟩

/-- Counterexample to C7 as stated: with overlay 100 × 20 and two eligible
elements at (0, 0) and (0, 11) (both within the claimed position range), the
second label is pushed below the first, overshoots the bottom edge, and is
then pushed above to y = -15 < 0. -/
theorem layout_bounds_counterexample :
    (childC7a.rx ≥ -childC7a.width ∧ childC7a.rx ≤ 100 + childC7a.width ∧
      childC7a.ry ≥ -childC7a.height ∧ childC7a.ry ≤ 20 + childC7a.height) ∧
    (childC7b.rx ≥ -childC7b.width ∧ childC7b.rx ≤ 100 + childC7b.width ∧
      childC7b.ry ≥ -childC7b.height ∧ childC7b.ry ≤ 20 + childC7b.height) ∧
    ∃ r ∈ (on_draw 100 20 measC7 hintsC7 []).1, r.y < 0 := by
  decide

/-- Modelled from the claim wording of C8: a single pass over the previously
placed rectangles in placement order; on overlap (axis-aligned test) the
candidate's y becomes `other.y + other.h + 2`, and if that plus the candidate
height exceeds the overlay height it becomes `other.y - h - 2` instead. -/
def collisionSpecPass (H x w h : Int) : Int → List Rect → Int
  | y, [] => y
  | y, other :: rest =>
      if x < other.x + other.w ∧ x + w > other.x ∧ y < other.y + other.h ∧ y + h > other.y then
        if other.y + other.h + 2 + h > H then collisionSpecPass H x w h (other.y - h - 2) rest
        else collisionSpecPass H x w h (other.y + other.h + 2) rest
      else collisionSpecPass H x w h y rest

def r1C8 : Rect := { x := 0, y := 80, w := 16, h := 13 }

def r2C8 : Rect := { x := 0, y := 60, w := 16, h := 13 }

/-- C8. The collision loop of `on_draw` is exactly the single pass described
by the claim, and it is not iterated to a fixed point: in the concrete
instance the resolved candidate (y = 75) still overlaps the first placed
rectangle. -/
theorem collision_resolution_single_pass :
    (∀ (H : Int) (drawn : List Rect) (x y w h : Int),
      resolveCollisions H drawn x y w h = collisionSpecPass H x w h y drawn) ∧
    (resolveCollisions 100 [r1C8, r2C8] 0 85 16 13 = 75 ∧
      (0 < r1C8.x + r1C8.w ∧ 0 + 16 > r1C8.x ∧ 75 < r1C8.y + r1C8.h ∧ 75 + 13 > r1C8.y)) := by
  constructor
  · intro H drawn
    induction drawn with
    | nil => intro x y w h; rfl
    | cons r rs ih =>
      intro x y w h
      have hstep : resolveCollisions H (r :: rs) x y w h
          = resolveCollisions H rs x (collideStep H w h x y r) w h := rfl
      rw [hstep, ih]
      have hspec : collisionSpecPass H x w h y (r :: rs)
          = if x < r.x + r.w ∧ x + w > r.x ∧ y < r.y + r.h ∧ y + h > r.y then
              (if r.y + r.h + 2 + h > H then collisionSpecPass H x w h (r.y - h - 2) rs
               else collisionSpecPass H x w h (r.y + r.h + 2) rs)
            else collisionSpecPass H x w h y rs := rfl
      rw [hspec]
      unfold collideStep
      split_ifs <;> rfl
  · constructor
    · decide
    · decide

/-! ## Action resolution (C9) and the empty-label-set guarantee (C10) -/

theorem resolveCheck_resolved (s : OverlayState) (lab : List Char) (c : Child) (dx dy : Int)
    (hsingle : s.hints = [(lab, c)])
    (hmatch : lab.map Char.toUpper = s.hint_selector_state)
    (hoff : List.lookup lab s.hints_drawn_offsets = some (dx, dy)) :
    resolveCheck s =
      { s with
        done := true,
        mouse_action :=
          { action := some (s.mouse_action.action.getD actClick),
            button := some (s.mouse_action.button.getD MouseButton.LEFT),
            repeatCount := some (s.mouse_action.repeatCount.getD 1),
            x := some (c.ax + dx),
            y := some (c.ay + dy) } } := by
  unfold resolveCheck
  rw [hsingle]
  dsimp only
  rw [if_pos hmatch, hoff]

theorem on_key_press_offsets (cfg : Config) (W H : Int) (allH : List (List Char × Child))
    (s2 : OverlayState) (e2 : KeyEvent) :
    (on_key_press cfg W H allH s2 e2).hints_drawn_offsets = s2.hints_drawn_offsets := by
  unfold on_key_press
  split_ifs with hd hesc hbs2
  · rfl
  · rfl
  · rfl
  · rw [(resolveCheck_core _).2.2, key_phases_offsets]

/-- C9. When the live label set has exactly one label whose normalized form
equals the accumulated prefix, the resolved mouse action has x/y equal to
the matched element's absolute position plus the offset cached for that
label at the most recent draw (key events never modify the offset cache, so
the cache is exactly what the draw left), the action kind is `click` unless
a hover/grab qualifier is pending, the button is LEFT unless a
secondary-button qualifier is pending, and the repeat count is 1 unless a
digit string was accumulated. -/
theorem resolve_action_fields (cfg : Config) (W H : Int) (allH : List (List Char × Child))
    (measure : List Char → Int) (s : OverlayState) (e : KeyEvent)
    (lab : List Char) (c : Child) (dx dy : Int)
    (hdone : s.done = false)
    (hesc : e.keyval ≠ kEscape) (hexit : e.key_lower ≠ cfg.exit_key)
    (hbs : e.keyval ≠ kBackSpace)
    (hsingle : (key_phases cfg (on_draw_state W H measure s) e).hints = [(lab, c)])
    (hmatch : lab.map Char.toUpper
      = (key_phases cfg (on_draw_state W H measure s) e).hint_selector_state)
    (hoff : List.lookup lab (on_draw W H measure s.hints s.hints_drawn_offsets).2
      = some (dx, dy)) :
    ((on_key_press cfg W H allH (on_draw_state W H measure s) e).mouse_action
        = { action := some ((key_phases cfg
              (on_draw_state W H measure s) e).mouse_action.action.getD actClick),
            button := some ((key_phases cfg
              (on_draw_state W H measure s) e).mouse_action.button.getD MouseButton.LEFT),
            repeatCount := some ((key_phases cfg
              (on_draw_state W H measure s) e).mouse_action.repeatCount.getD 1),
            x := some (c.ax + dx),
            y := some (c.ay + dy) } ∧
      (on_key_press cfg W H allH (on_draw_state W H measure s) e).done = true) ∧
    (∀ (s2 : OverlayState) (e2 : KeyEvent),
      (on_key_press cfg W H allH s2 e2).hints_drawn_offsets = s2.hints_drawn_offsets) := by
  have hoff2 : List.lookup lab
      (key_phases cfg (on_draw_state W H measure s) e).hints_drawn_offsets
      = some (dx, dy) := by
    rw [key_phases_offsets]
    exact hoff
  have hres := resolveCheck_resolved (key_phases cfg (on_draw_state W H measure s) e)
    lab c dx dy hsingle hmatch hoff2
  have hstep : on_key_press cfg W H allH (on_draw_state W H measure s) e
      = resolveCheck (key_phases cfg (on_draw_state W H measure s) e) := by
    unfold on_key_press
    rw [if_neg (by show ¬ s.done = true; rw [hdone]; exact fun h => Bool.noConfusion h),
      if_neg (by rintro (h | h); exact hesc h; exact hexit h),
      if_neg (fun hc => hbs hc.1)]
  rw [hstep, hres]
  exact ⟨⟨rfl, rfl⟩, on_key_press_offsets cfg W H allH⟩

/-- Witness data for C9. -/
def childC9 : Child :=
  { width := 30, height := 30, rx := 50, ry := 50, ax := 500, ay := 600,
    role := "button".toList, name := [] }

def sC9 : OverlayState :=
  { hints := [(['S'], childC9)],
    hint_selector_state := ['S'],
    hints_drawn_offsets := [],
    mouse_action := maNone,
    done := false }

def eC9 : KeyEvent := { keyval := 32, key_lower := 32, mods := 0 }

def measC9 : List Char → Int := fun _ => 10

theorem resolve_action_fields_witness :
    (on_key_press cfgW3 200 200 [] (on_draw_state 200 200 measC9 sC9) eC9).mouse_action
      = { action := some actClick, button := some MouseButton.LEFT,
          repeatCount := some 1, x := some 503, y := some 601 } := by
  have h := resolve_action_fields cfgW3 200 200 [] measC9 sC9 eC9 ['S'] childC9 3 1
    (by decide) (by decide) (by decide) (by decide) (by decide) (by decide) (by decide)
  rw [h.1.1]
  decide

theorem on_key_press_done_abs (cfg : Config) (W H : Int) (allH : List (List Char × Child))
    (s : OverlayState) (e : KeyEvent) (hd : s.done = true) :
    on_key_press cfg W H allH s e = s := by
  unfold on_key_press
  rw [if_pos hd]

theorem resolveCheck_empty (s : OverlayState) (h : s.hints = []) : resolveCheck s = s := by
  unfold resolveCheck
  split
  · rename_i kv heq
    rw [h] at heq
    exact absurd heq (by simp)
  · rfl

theorem key_phases_empty (cfg : Config) (s : OverlayState) (e : KeyEvent)
    (h1 : s.hints = []) :
    (key_phases cfg s e).hints = [] ∧
    (key_phases cfg s e).hint_selector_state = s.hint_selector_state ∧
    (key_phases cfg s e).mouse_action.x = s.mouse_action.x ∧
    (key_phases cfg s e).mouse_action.y = s.mouse_action.y ∧
    (key_phases cfg s e).done = s.done := by
  have hh := hoverPhase_core cfg s e
  have hg := grabPhase_core cfg (hoverPhase cfg s e) e
  have hs := shiftPhase_core (grabPhase cfg (hoverPhase cfg s e) e) e
  have h3h : (shiftPhase (grabPhase cfg (hoverPhase cfg s e) e) e).hints = [] := by
    rw [hs.1, hg.1, hh.1, h1]
  have halpha_id : alphaPhase (shiftPhase (grabPhase cfg (hoverPhase cfg s e) e) e) e
      = shiftPhase (grabPhase cfg (hoverPhase cfg s e) e) e := by
    unfold alphaPhase
    split_ifs with ha
    · unfold update_hints
      rw [if_neg (by rw [h3h]; exact fun hne => hne rfl)]
    · rfl
  have hd := digitPhase_core (shiftPhase (grabPhase cfg (hoverPhase cfg s e) e) e) e
  unfold key_phases
  rw [halpha_id]
  refine ⟨by rw [hd.1, h3h], ?_, ?_, ?_, ?_⟩
  · rw [hd.2.1, hs.2.1, hg.2.1, hh.2.1]
  · rw [hd.2.2.2.2.1, hs.2.2.2.2.1, hg.2.2.2.2.1, hh.2.2.2.2.1]
  · rw [hd.2.2.2.2.2, hs.2.2.2.2.2, hg.2.2.2.2.2, hh.2.2.2.2.2]
  · rw [hd.2.2.2.1, hs.2.2.2.1, hg.2.2.2.1, hh.2.2.2.1]

theorem empty_hints_aux (cfg : Config) (W H : Int) (allH : List (List Char × Child)) :
    ∀ (es : List KeyEvent) (s : OverlayState),
      s.hints = [] → s.hint_selector_state = [] →
      s.mouse_action.x = none → s.mouse_action.y = none →
      ((es.foldl (on_key_press cfg W H allH) s).hints = [] ∧
       (es.foldl (on_key_press cfg W H allH) s).hint_selector_state = [] ∧
       (es.foldl (on_key_press cfg W H allH) s).mouse_action.x = none ∧
       (es.foldl (on_key_press cfg W H allH) s).mouse_action.y = none ∧
       ((es.foldl (on_key_press cfg W H allH) s).done = true →
         s.done = true ∨ ∃ e ∈ es, e.keyval = kEscape ∨ e.key_lower = cfg.exit_key)) := by
  intro es
  induction es with
  | nil =>
    intro s h1 h2 h3 h4
    exact ⟨h1, h2, h3, h4, fun h => Or.inl h⟩
  | cons e es ih =>
    intro s h1 h2 h3 h4
    rw [List.foldl_cons]
    by_cases hd : s.done = true
    · rw [on_key_press_done_abs cfg W H allH s e hd]
      obtain ⟨a1, a2, a3, a4, -⟩ := ih s h1 h2 h3 h4
      exact ⟨a1, a2, a3, a4, fun _ => Or.inl hd⟩
    · by_cases hesc : e.keyval = kEscape ∨ e.key_lower = cfg.exit_key
      · have hstep : on_key_press cfg W H allH s e = { s with done := true } := by
          unfold on_key_press
          rw [if_neg hd, if_pos hesc]
        rw [hstep]
        obtain ⟨a1, a2, a3, a4, -⟩ := ih { s with done := true } h1 h2 h3 h4
        exact ⟨a1, a2, a3, a4, fun _ => Or.inr ⟨e, List.mem_cons_self _ _, hesc⟩⟩
      · have hstep : on_key_press cfg W H allH s e
            = resolveCheck (key_phases cfg s e) := by
          unfold on_key_press
          rw [if_neg hd, if_neg hesc, if_neg (fun hc => hc.2 h2)]
        obtain ⟨k1, k2, k3, k4, k5⟩ := key_phases_empty cfg s e h1
        have hrc : resolveCheck (key_phases cfg s e) = key_phases cfg s e :=
          resolveCheck_empty _ k1
        rw [hstep, hrc]
        obtain ⟨a1, a2, a3, a4, a5⟩ := ih (key_phases cfg s e) k1 (k2.trans h2)
          (k3.trans h3) (k4.trans h4)
        refine ⟨a1, a2, a3, a4, fun hdone2 => ?_⟩
        rcases a5 hdone2 with hca | hcb
        · rw [k5] at hca
          exact absurd hca hd
        · obtain ⟨e2, he2, hp⟩ := hcb
          exact Or.inr ⟨e2, List.mem_cons_of_mem _ he2, hp⟩

/-- C10. If the filtered element set is empty, the generated label mapping is
empty, the live set stays empty under every key sequence, the mouse action's
x/y are never populated, and the overlay can become torn down only through
the escape/exit-key path. -/
theorem empty_filter_no_resolution (cfg : Config) (W H : Int)
    (allH : List (List Char × Child)) (ma0 : MouseAction) (es : List KeyEvent)
    (hempty : filter_important_hints W H allH = [])
    (hx : ma0.x = none) (hy : ma0.y = none) :
    generate_hint_labels (filter_important_hints W H allH) = [] ∧
    (runKeys cfg W H allH ma0 es).hints = [] ∧
    (runKeys cfg W H allH ma0 es).mouse_action.x = none ∧
    (runKeys cfg W H allH ma0 es).mouse_action.y = none ∧
    ((runKeys cfg W H allH ma0 es).done = true →
      ∃ e ∈ es, e.keyval = kEscape ∨ e.key_lower = cfg.exit_key) := by
  have hgen : generate_hint_labels (filter_important_hints W H allH) = [] := by
    rw [hempty]
    decide
  obtain ⟨a1, a2, a3, a4, a5⟩ := empty_hints_aux cfg W H allH es (initState W H allH ma0)
    hgen rfl hx hy
  refine ⟨hgen, a1, a3, a4, fun h => ?_⟩
  rcases a5 h with hca | hcb
  · exact absurd hca (by exact fun hh => Bool.noConfusion hh)
  · exact hcb

theorem empty_filter_no_resolution_witness :
    (runKeys cfgW3 100 100 [] maNone [keyS]).mouse_action.x = none ∧
    (runKeys cfgW3 100 100 [] maNone [keyS]).hints = [] :=
  have h := empty_filter_no_resolution cfgW3 100 100 [] maNone [keyS]
    (by decide) (by decide) (by decide)
  ⟨h.2.2.1, h.2.1⟩

theorem selection_live_set_amended_witness :
    (runKeys cfgW3 100 100 [] maNone [keyS]).hints
      = liveFilter (generate_hint_labels (filter_important_hints 100 100 []))
          (runKeys cfgW3 100 100 [] maNone [keyS]).hint_selector_state :=
  (selection_live_set_amended cfgW3 100 100 [] maNone).1 [keyS] (by decide)
